import Mathlib

/-!
# Verification of the Compact circuit documentation extractor and validator

A shallow embedding of `CircuitParser` (the signature & documentation
extractor) and `DocValidator` (the documentation consistency validator)
from the `docs` package of the Compact tools, with theorems settling the
frozen claims about their behaviour.

Strings are modelled as `List Char` (the JavaScript code operates on
UTF-16 strings; all inputs of interest are plain text, and `List Char`
reproduces indexwise character operations exactly).  JavaScript regular
expressions are embedded as explicit deterministic scanners; for each
regex of the source the scanner reproduces the leftmost-match and
greedy/lazy backtracking behaviour on the character classes involved.
-/

namespace CompactDocs

/-- JavaScript `\s` (whitespace class), restricted to the code points that
can occur in source text handled by the tool: space, tab, line feed,
carriage return, vertical tab, form feed, no-break space, BOM. -/
def isWS (c : Char) : Bool :=
  c == ' ' || c == '\t' || c == '\n' || c == '\r' ||
  c == Char.ofNat 11 || c == Char.ofNat 12 || c == Char.ofNat 160 ||
  c == Char.ofNat 0xfeff

/-- JavaScript `\w`: ASCII letters, digits and underscore. -/
def isWordChar (c : Char) : Bool :=
  c.isAlphanum || c == '_'

/-- The `\x7b` character (opening curly brace), named to keep string
literals free of raw braces. -/
def obrace : Char := Char.ofNat 123

/-- The `\x7d` character (closing curly brace). -/
def cbrace : Char := Char.ofNat 125

/-- JavaScript `String.prototype.trim`: drop whitespace on both ends. -/
def trim (cs : List Char) : List Char :=
  ((cs.dropWhile isWS).reverse.dropWhile isWS).reverse

/-- JavaScript `String.prototype.split("\n")`: split on newline, keeping
empty segments. -/
def splitOnNL : List Char → List (List Char)
  | [] => [[]]
  | c :: cs =>
    if c = '\n' then [] :: splitOnNL cs
    else
      match splitOnNL cs with
      | [] => [[c]]
      | l :: ls => (c :: l) :: ls

/-- JavaScript `Array.prototype.join("\n")`. -/
def joinNL : List (List Char) → List Char
  | [] => []
  | [l] => l
  | l :: ls => l ++ '\n' :: joinNL ls

/-- JavaScript `Array.prototype.join(" ")`. -/
def joinSpace : List (List Char) → List Char
  | [] => []
  | [l] => l
  | l :: ls => l ++ ' ' :: joinSpace ls

/-- `replace(/\s+/g, " ")`: collapse every whitespace run to one space.
The boolean argument records whether the previous character was part of a
whitespace run already replaced. -/
def collapseWSGo : Bool → List Char → List Char
  | _, [] => []
  | prevWS, c :: cs =>
    if isWS c then
      if prevWS then collapseWSGo true cs else ' ' :: collapseWSGo true cs
    else c :: collapseWSGo false cs

/-- `replace(/\s+/g, " ")` on a whole string. -/
def collapseWS (cs : List Char) : List Char :=
  collapseWSGo false cs

/-- `CircuitParser.cleanMultilineText`: split into lines, trim each line,
join with single spaces, collapse whitespace runs, trim. -/
def cleanMultilineText (t : List Char) : List Char :=
  trim (collapseWS (joinSpace ((splitOnNL t).map trim)))

/-! ## Data model (`types.ts`) -/

/-- A parameter parsed from a circuit signature. -/
structure CircuitParam where
  name : List Char
  type : List Char
deriving DecidableEq, Repr

/-- A parameter from documentation (`@param`). -/
structure DocParam where
  name : List Char
  type : List Char
  description : List Char
deriving DecidableEq, Repr

/-- A throws entry from documentation (`@throws`). -/
structure DocThrows where
  type : List Char
  message : List Char
deriving DecidableEq, Repr

/-- The `@returns` entry of a parsed doc block. -/
structure DocReturns where
  type : List Char
  description : List Char
deriving DecidableEq, Repr

/-- The parsed documentation comment.  Optional string fields are `none`
when the tag was never matched (JavaScript `undefined`); an empty-string
value is distinct from `none` but both are falsy for the validator. -/
structure ParsedDoc where
  title : Option (List Char)
  description : Option (List Char)
  remarks : Option (List Char)
  circuitInfo : Option (List Char)
  params : List DocParam
  throws : List DocThrows
  returns : Option DocReturns
deriving DecidableEq, Repr

/-- The `ParsedDoc` with no recognized tags (`{ params: [], throws: [] }`). -/
def emptyParsedDoc : ParsedDoc :=
  ⟨none, none, none, none, [], [], none⟩

/-- A parsed circuit with its documentation and signature. -/
structure CircuitDoc where
  name : List Char
  docComment : List Char
  circuitLine : Nat
  docStartLine : Nat
  docEndLine : Nat
  hasDocs : Bool
  isExported : Bool
  parsed : ParsedDoc
  signatureParams : List CircuitParam
  signatureReturn : List Char
deriving DecidableEq, Repr

/-! ## `CircuitParser.splitParams` and `extractParams` -/

/-- Loop of `splitParams`: split on commas at angle-bracket depth zero.
`cur` is the fragment being accumulated, `ac` the running `<`/`>` count,
`parts` the fragments already emitted. -/
def splitParamsAux : List Char → List Char → Int → List (List Char) → List (List Char)
  | [], cur, _, parts => if trim cur ≠ [] then parts ++ [cur] else parts
  | c :: cs, cur, ac, parts =>
    if c = '<' then splitParamsAux cs (cur ++ [c]) (ac + 1) parts
    else if c = '>' then splitParamsAux cs (cur ++ [c]) (ac - 1) parts
    else if c = ',' ∧ ac = 0 then splitParamsAux cs [] ac (parts ++ [cur])
    else splitParamsAux cs (cur ++ [c]) ac parts

/-- `CircuitParser.splitParams`: split a parameter-list string on
top-level commas, respecting nested angle brackets. -/
def splitParams (paramStr : List Char) : List (List Char) :=
  splitParamsAux paramStr [] 0 []

/-- Strip one trailing comma (`replace(/,\s*$/, "")` applied to an
already-trimmed string). -/
def stripTrailingComma (t : List Char) : List Char :=
  if t.getLastD ' ' = ',' then t.dropLast else t

/-- Match one parameter fragment against `/^(\w+)\s*:\s*(.+)$/` after
trimming, producing `{name, type}`; fragments that do not match are
skipped (`none`). -/
def parseFragment (part : List Char) : Option CircuitParam :=
  let trimmed := trim part
  if trimmed = [] then none
  else
    let nm := trimmed.takeWhile isWordChar
    let r1 := trimmed.dropWhile isWordChar
    if nm = [] then none
    else
      match r1.dropWhile isWS with
      | ':' :: rest =>
        let u := rest.dropWhile isWS
        if u ≠ [] then
          if u.contains '\n' then none
          else some ⟨nm, stripTrailingComma (trim u)⟩
        else if rest ≠ [] ∧ rest.getLastD ' ' ≠ '\n' then
          some ⟨nm, stripTrailingComma (trim [rest.getLastD ' '])⟩
        else none
      | _ => none

/-- Scan for the parenthesis matching the one that starts the list
(`parenCount` bookkeeping of `extractParams`); returns the offset of the
matching `)` from the opening `(`. -/
def matchClose : List Char → Int → Nat → Option Nat
  | [], _, _ => none
  | c :: cs, cnt, i =>
    if c = '(' then matchClose cs (cnt + 1) (i + 1)
    else if c = ')' then
      if cnt - 1 = 0 then some i else matchClose cs (cnt - 1) (i + 1)
    else matchClose cs cnt (i + 1)

/-- `CircuitParser.extractParams`: take the substring between the first
`(` and its matching `)`, split it on top-level commas, and parse each
fragment. -/
def extractParams (signature : List Char) : List CircuitParam :=
  match signature.dropWhile (fun c => c ≠ '(') with
  | [] => []
  | _ :: afterParen =>
    match matchClose (signature.dropWhile (fun c => c ≠ '(')) 0 0 with
    | none => []
    | some off =>
      let paramStr := trim (afterParen.take (off - 1))
      if paramStr = [] then []
      else (splitParams paramStr).filterMap parseFragment

/-- `CircuitParser.extractReturnType`'s regex `/\)\s*:\s*([^{]+)/`: find
the first `)` followed (after whitespace) by `:` and at least one
non-brace character; capture up to the next `{` and trim. -/
def findRet : List Char → Option (List Char)
  | [] => none
  | c :: rest =>
    if c = ')' then
      match rest.dropWhile isWS with
      | ':' :: r2 =>
        let g := r2.takeWhile (fun x => x ≠ obrace)
        if g = [] then findRet rest else some (trim g)
      | _ => findRet rest
    else findRet rest

/-- `CircuitParser.extractReturnType`: the captured return type, or the
default `"[]"`. -/
def extractReturnType (signature : List Char) : List Char :=
  (findRet signature).getD "[]".data

/-! ## Declaration detection (`parseContent`'s regex) -/

/-- Drop an exact literal prefix. -/
def dropPrefixExact (pat cs : List Char) : Option (List Char) :=
  if pat.isPrefixOf cs then some (cs.drop pat.length) else none

/-- Match a keyword followed by `\s+` (at least one whitespace
character), consuming the maximal whitespace run. -/
def matchKeywordWS (kw cs : List Char) : Option (List Char) :=
  match dropPrefixExact kw cs with
  | none => none
  | some r =>
    match r with
    | c :: _ => if isWS c then some (r.dropWhile isWS) else none
    | [] => none

/-- The declaration regex
`/^(export\s+)?(pure\s+)?circuit\s+(\w+)\s*\(/` of `parseContent`,
anchored at the start of the line.  Returns the export flag and the
circuit name on a match. -/
def matchCircuitDecl (line : List Char) : Option (Bool × List Char) :=
  let step1 : Bool × List Char :=
    match matchKeywordWS "export".data line with
    | some r => (true, r)
    | none => (false, line)
  let r2 : List Char :=
    match matchKeywordWS "pure".data step1.2 with
    | some r => r
    | none => step1.2
  match matchKeywordWS "circuit".data r2 with
  | none => none
  | some r3 =>
    let nm := r3.takeWhile isWordChar
    if nm = [] then none
    else
      match (r3.dropWhile isWordChar).dropWhile isWS with
      | '(' :: _ => some (step1.1, nm)
      | _ => none

example : matchCircuitDecl "export circuit foo(a: A): []".data =
    some (true, "foo".data) := by decide
example : matchCircuitDecl "circuit foo(".data = some (false, "foo".data) := by decide
example : matchCircuitDecl "  circuit foo(".data = none := by decide
example : matchCircuitDecl "export pure circuit bar_9(".data =
    some (true, "bar_9".data) := by decide
example : matchCircuitDecl "exporting circuit foo(".data = none := by decide
example : matchCircuitDecl "circuit foo (".data = some (false, "foo".data) := by decide

example :
    splitParams "admin: Either<A, B>, caller: Either<A, B>".data =
      ["admin: Either<A, B>".data, " caller: Either<A, B>".data] := by decide

example :
    extractParams "circuit grant(admin: Either<A, B>, caller: Either<A, B>): []".data =
      [⟨"admin".data, "Either<A, B>".data⟩, ⟨"caller".data, "Either<A, B>".data⟩] := by
  decide

example : extractReturnType "circuit f(x: A): B".data = "B".data := by decide
example : extractReturnType "circuit f(x: A)".data = "[]".data := by decide

/-! ## Doc comment normalization (`normalizeDocComment`) -/

/-- `replace(/^\/\*\*\s*/, "")`: remove an opening `/**` marker together
with the whitespace run following it. -/
def stripOpenMarker (cs : List Char) : List Char :=
  if "/**".data.isPrefixOf cs then (cs.drop 3).dropWhile isWS else cs

/-- `replace(/\s*\*\/$/, "")`: remove a closing `*/` marker together with
the whitespace run preceding it. -/
def stripCloseMarker (cs : List Char) : List Char :=
  let r := cs.reverse
  if "/*".data.isPrefixOf r then ((r.drop 2).dropWhile isWS).reverse else cs

/-- `replace(/^\s*\*\s?/, "")` on one line: remove leading whitespace, a
single `*`, and at most one whitespace character after it; a line with no
leading asterisk is unchanged. -/
def stripLineStar (line : List Char) : List Char :=
  match line.dropWhile isWS with
  | '*' :: rest =>
    match rest with
    | c :: rest2 => if isWS c then rest2 else rest
    | [] => []
  | _ => line

/-- `CircuitParser.normalizeDocComment`: strip `/**` and `*/`, strip one
leading asterisk per line, and trim the result. -/
def normalizeDocComment (docComment : List Char) : List Char :=
  trim (joinNL ((splitOnNL (stripCloseMarker (stripOpenMarker docComment))).map stripLineStar))

/-! ## Doc tag extraction (`parseDocComment`'s regexes) -/

/-- The lookahead `(?=\n\s*@|\n\s*$|$)` terminating lazy tag captures:
holds at end of text, or at a newline followed (after whitespace) by a
new tag marker or by the end of text. -/
def laStop : List Char → Bool
  | [] => true
  | '\n' :: rest =>
    match rest.dropWhile isWS with
    | [] => true
    | '@' :: _ => true
    | _ => false
  | _ => false

/-- The `@remarks` variant `(?=\n\s*@(?!remarks)|\n\s*$|$)`: a nested
`@remarks` marker does not terminate the section. -/
def laStopRemarks : List Char → Bool
  | [] => true
  | '\n' :: rest =>
    match rest.dropWhile isWS with
    | [] => true
    | '@' :: r2 => !("remarks".data.isPrefixOf r2)
    | _ => false
  | _ => false

/-- A lazy `(.+?)` capture (with `/s`, so `.` also matches newlines):
take at least one character and stop as soon as the terminating lookahead
holds. -/
def grabLazyWith (stop : List Char → Bool) : List Char → List Char
  | [] => []
  | c :: rest => c :: (if stop rest then [] else grabLazyWith stop rest)

/-- `\s+(.+?)(?=stop)` after a tag literal: require at least one
whitespace character, consume the maximal whitespace run, then capture
lazily; when everything to the end is whitespace the engine gives one
whitespace character back to the mandatory capture. -/
def tryTagAt (stop : List Char → Bool) (a : List Char) : Option (List Char) :=
  match a with
  | c :: _ =>
    if isWS c then
      let u := a.dropWhile isWS
      if u ≠ [] then some (grabLazyWith stop u)
      else if 2 ≤ a.length then some [a.getLastD ' ']
      else none
    else none
  | [] => none

/-- First match of `/tag\s+(.+?)(?=stop)/s` over the whole text
(JavaScript `String.prototype.match` semantics: leftmost match wins; a
failed attempt resumes scanning at the next position). -/
def findTagCapture (tag : List Char) (stop : List Char → Bool) : List Char → Option (List Char)
  | [] => none
  | c :: rest =>
    if tag.isPrefixOf (c :: rest) then
      match tryTagAt stop ((c :: rest).drop tag.length) with
      | some cap => some cap
      | none => findTagCapture tag stop rest
    else findTagCapture tag stop rest

/-- `\s*-?\s*(.+?)(?=laStop)`: optional whitespace, an optional dash,
optional whitespace, then a mandatory lazy capture.  Returns the capture
and the remaining suffix after it; when the whole text was consumed by
the optional parts the engine backtracks, giving the final character to
the capture. -/
def descGame (w : List Char) : Option (List Char × List Char) :=
  let w1 := w.dropWhile isWS
  let w2 := match w1 with
    | d :: t => if d = '-' then t.dropWhile isWS else w1
    | [] => w1
  if w2 ≠ [] then
    let d := grabLazyWith laStop w2
    some (d, w2.drop d.length)
  else if w ≠ [] then some ([w.getLastD ' '], [])
  else none

/-- One attempt of `/@param\s+\{([^}]+)\}\s+(\w+)\s*-?\s*(.+?)(?=…)/gs`
at a position just after the `@param` literal; on success returns the
entry and the suffix following the full match. -/
def matchParamAt (a : List Char) : Option (DocParam × List Char) :=
  match a with
  | c :: _ =>
    if isWS c then
      match a.dropWhile isWS with
      | b :: u2 =>
        if b = obrace then
          let ty := u2.takeWhile (fun x => x ≠ cbrace)
          match u2.dropWhile (fun x => x ≠ cbrace) with
          | _ :: u4 =>
            if ty = [] then none
            else
              match u4 with
              | d :: _ =>
                if isWS d then
                  let v := u4.dropWhile isWS
                  let nm := v.takeWhile isWordChar
                  if nm = [] then none
                  else
                    match descGame (v.dropWhile isWordChar) with
                    | some dr => some (⟨nm, trim ty, cleanMultilineText dr.1⟩, dr.2)
                    | none => none
                else none
              | [] => none
          | [] => none
        else none
      | [] => none
    else none
  | [] => none

/-- `matchAll` driver for `@param`: scan left to right; a successful
match resumes after its end, a failed attempt resumes one character
later.  The fuel argument (instantiated with the text length) bounds the
recursion; every step consumes at least one character. -/
def paramsScan : Nat → List Char → List DocParam
  | 0, _ => []
  | _, [] => []
  | fuel + 1, c :: rest =>
    if "@param".data.isPrefixOf (c :: rest) then
      match matchParamAt ((c :: rest).drop 6) with
      | some er => er.1 :: paramsScan fuel er.2
      | none => paramsScan fuel rest
    else paramsScan fuel rest

/-- One attempt of `/@throws\s+\{([^}]+)\}\s*(.+?)(?=…)/gs` just after
the `@throws` literal. -/
def matchThrowsAt (a : List Char) : Option (DocThrows × List Char) :=
  match a with
  | c :: _ =>
    if isWS c then
      match a.dropWhile isWS with
      | b :: u2 =>
        if b = obrace then
          let ty := u2.takeWhile (fun x => x ≠ cbrace)
          match u2.dropWhile (fun x => x ≠ cbrace) with
          | _ :: u4 =>
            if ty = [] then none
            else
              let v := u4.dropWhile isWS
              if v ≠ [] then
                let d := grabLazyWith laStop v
                some (⟨trim ty, cleanMultilineText d⟩, v.drop d.length)
              else if u4 ≠ [] then
                some (⟨trim ty, cleanMultilineText [u4.getLastD ' ']⟩, [])
              else none
          | [] => none
        else none
      | [] => none
    else none
  | [] => none

/-- `matchAll` driver for `@throws`. -/
def throwsScan : Nat → List Char → List DocThrows
  | 0, _ => []
  | _, [] => []
  | fuel + 1, c :: rest =>
    if "@throws".data.isPrefixOf (c :: rest) then
      match matchThrowsAt ((c :: rest).drop 7) with
      | some er => er.1 :: throwsScan fuel er.2
      | none => throwsScan fuel rest
    else throwsScan fuel rest

/-- One attempt of
`/@returns?\s+(?:\{([^}]+)\})?\s*-?\s*(.+?)(?=…)/s` just after the
optional-`s` keyword; when the optional braced type group fails (or
matching after it fails) the engine retries without the group. -/
def tryReturnsAt (a : List Char) : Option DocReturns :=
  match a with
  | c :: _ =>
    if isWS c then
      let u := a.dropWhile isWS
      if u = [] then
        if 2 ≤ a.length then some ⟨[], cleanMultilineText [a.getLastD ' ']⟩ else none
      else
        let braced : Option (List Char × List Char) :=
          match u with
          | b :: u2 =>
            if b = obrace then
              let ty := u2.takeWhile (fun x => x ≠ cbrace)
              match u2.dropWhile (fun x => x ≠ cbrace) with
              | _ :: u4 => if ty = [] then none else some (ty, u4)
              | [] => none
            else none
          | [] => none
        match braced with
        | some tu =>
          match descGame tu.2 with
          | some dr => some ⟨trim tu.1, cleanMultilineText dr.1⟩
          | none => (descGame u).map (fun p => ⟨[], cleanMultilineText p.1⟩)
        | none => (descGame u).map (fun p => ⟨[], cleanMultilineText p.1⟩)
    else none
  | [] => none

/-- First match of the `@returns`/`@return` regex: the optional trailing
`s` is consumed greedily when present. -/
def findReturns : List Char → Option DocReturns
  | [] => none
  | c :: rest =>
    if "@return".data.isPrefixOf (c :: rest) then
      let a0 := (c :: rest).drop 7
      let a := match a0 with
        | 's' :: t => t
        | _ => a0
      match tryReturnsAt a with
      | some r => some r
      | none => findReturns rest
    else findReturns rest

/-- `CircuitParser.parseDocComment`: normalize the block and extract all
recognized tags. -/
def parseDocComment (docComment : List Char) : ParsedDoc :=
  if docComment = [] then emptyParsedDoc
  else
    let n := normalizeDocComment docComment
    ⟨(findTagCapture "@title".data laStop n).map cleanMultilineText,
     (findTagCapture "@description".data laStop n).map cleanMultilineText,
     (findTagCapture "@remarks".data laStopRemarks n).map cleanMultilineText,
     (findTagCapture "@circuitInfo".data laStop n).map cleanMultilineText,
     paramsScan n.length n,
     throwsScan n.length n,
     findReturns n⟩

/-! ## Signature accumulation (`parseSignature`) -/

/-- Per-line parenthesis bookkeeping of `parseSignature`: updates the
running count, the open-paren flag and the sticky close-paren flag. -/
def scanLine : List Char → Int → Bool → Bool → Int × Bool × Bool
  | [], bc, fo, fc => (bc, fo, fc)
  | c :: cs, bc, fo, fc =>
    if c = '(' then scanLine cs (bc + 1) true fc
    else if c = ')' then scanLine cs (bc - 1) fo (fc || (bc - 1 == 0 && fo))
    else scanLine cs bc fo fc

/-- Line accumulation loop of `parseSignature`: append lines (with no
separator) until the parameter list closed and the closing line contains
a colon. -/
def sigLoop : List (List Char) → Int → Bool → Bool → List Char → List Char
  | [], _, _, _, acc => acc
  | l :: ls, bc, fo, fc, acc =>
    let st := scanLine l bc fo fc
    if st.2.2 && l.contains ':' then acc ++ l
    else sigLoop ls st.1 st.2.1 st.2.2 (acc ++ l)

/-- `CircuitParser.parseSignature` for the declaration at line index `i`. -/
def parseSignature (lines : List (List Char)) (i : Nat) : List CircuitParam × List Char :=
  let signature := sigLoop (lines.drop i) 0 false false []
  (extractParams signature, extractReturnType signature)

/-! ## Doc block discovery (`findDocComment`) -/

/-- The line at index `j` (out-of-range reads give the empty line; the
extractor only indexes within bounds). -/
def lineAt (lines : List (List Char)) (j : Nat) : List Char :=
  lines.getD j []

/-- Backward blank-line skip of `findDocComment`: the greatest index
`j < i` whose line is not blank after trimming. -/
def lastNonBlank (lines : List (List Char)) : Nat → Option Nat
  | 0 => none
  | j + 1 => if trim (lineAt lines j) ≠ [] then some j else lastNonBlank lines j

/-- `lines[j].trim().startsWith("/**")`. -/
def startsDocMarker (l : List Char) : Bool :=
  "/**".data.isPrefixOf (trim l)

/-- `lines[j].trim().endsWith("*/")`. -/
def endsCloseMarker (l : List Char) : Bool :=
  "/*".data.isPrefixOf (trim l).reverse

/-- Backward search for the doc block opener: the greatest index `≤ j`
whose trimmed line starts with `/**`. -/
def findOpenMarker (lines : List (List Char)) : Nat → Option Nat
  | 0 => if startsDocMarker (lineAt lines 0) then some 0 else none
  | j + 1 =>
    if startsDocMarker (lineAt lines (j + 1)) then some (j + 1)
    else findOpenMarker lines j

/-- `lines.slice(a, b + 1)`. -/
def sliceLines (lines : List (List Char)) (a b : Nat) : List (List Char) :=
  (lines.drop a).take (b - a + 1)

/-- `CircuitParser.findDocComment`: walk backward from the declaration at
index `i`, skip blanks, and extract the `/** … */` block if present.
Returns the (trimmed, joined) doc text and the 1-indexed start and end
lines; with no block these default to `i + 1`. -/
def findDocComment (lines : List (List Char)) (i : Nat) : List Char × Nat × Nat :=
  match lastNonBlank lines i with
  | some j =>
    if endsCloseMarker (lineAt lines j) then
      match findOpenMarker lines j with
      | some j0 => (trim (joinNL (sliceLines lines j0 j)), j0 + 1, j + 1)
      | none => ([], i + 1, i + 1)
    else ([], i + 1, i + 1)
  | none => ([], i + 1, i + 1)

/-! ## `parseContent` -/

/-- The record pushed by `parseContent` for a declaration matched at line
index `i`. -/
def mkRecord (lines : List (List Char)) (i : Nat) (isExp : Bool) (nm : List Char) :
    CircuitDoc :=
  let sig := parseSignature lines i
  let fd := findDocComment lines i
  ⟨nm, fd.1, i + 1, fd.2.1, fd.2.2, !fd.1.isEmpty, isExp, parseDocComment fd.1,
    sig.1, sig.2⟩

/-- Scanning loop of `parseContent`: `i` is the index of the first line
of the remaining-lines argument within `lines`. -/
def parseContentGo (lines : List (List Char)) : Nat → List (List Char) → List CircuitDoc
  | _, [] => []
  | i, l :: rest =>
    match matchCircuitDecl l with
    | some em => mkRecord lines i em.1 em.2 :: parseContentGo lines (i + 1) rest
    | none => parseContentGo lines (i + 1) rest

/-- `CircuitParser.parseContent`: one record per matching line, in file
order. -/
def parseContent (content : List Char) : List CircuitDoc :=
  parseContentGo (splitOnNL content) 0 (splitOnNL content)

/-! ## `DocValidator` (`types.ts` validator half) -/

/-- Validator configuration. -/
structure ValidatorOptions where
  exportedOnly : Bool
  requireTitle : Bool
  requireDescription : Bool
  requireRemarks : Bool
  requireCircuitInfo : Bool
  requireParams : Bool
  requireThrows : Bool
  requireReturns : Bool
deriving DecidableEq, Repr

/-- `DEFAULT_OPTIONS`. -/
def DEFAULT_OPTIONS : ValidatorOptions :=
  ⟨true, false, true, false, true, true, false, true⟩

/-- Severity of a validation issue. -/
inductive Severity
  | warning
  | error
deriving DecidableEq, Repr

/-- A single validation issue. -/
structure ValidationIssue where
  message : List Char
  severity : Severity
  line : Nat
  field : List Char
deriving DecidableEq, Repr

/-- Validation result for one circuit. -/
structure ValidationResult where
  circuitName : List Char
  filePath : List Char
  line : Nat
  isValid : Bool
  issues : List ValidationIssue
deriving DecidableEq, Repr

/-- Per-file summary of validation results. -/
structure FileSummary where
  filePath : List Char
  totalCircuits : Nat
  validCircuits : Nat
  circuitsWithIssues : Nat
  totalWarnings : Nat
  totalErrors : Nat
deriving DecidableEq, Repr

/-- JavaScript truthiness of an optional string: missing and empty are
both falsy. -/
def falsyStr : Option (List Char) → Bool
  | none => true
  | some s => s.isEmpty

/-- The `@circuitInfo` format regex `/^k\s*=\s*(\d+)\s*,\s*rows\s*=\s*(\d+)$/`
applied to the trimmed text. -/
def circuitInfoFormatOk (s : List Char) : Bool :=
  match trim s with
  | 'k' :: r1 =>
    match r1.dropWhile isWS with
    | '=' :: r3 =>
      let r4 := r3.dropWhile isWS
      let ds := r4.takeWhile Char.isDigit
      if ds.isEmpty then false
      else
        match (r4.dropWhile Char.isDigit).dropWhile isWS with
        | ',' :: r7 =>
          let r8 := r7.dropWhile isWS
          if "rows".data.isPrefixOf r8 then
            match (r8.drop 4).dropWhile isWS with
            | '=' :: r11 =>
              let r12 := r11.dropWhile isWS
              let ds2 := r12.takeWhile Char.isDigit
              !ds2.isEmpty && (r12.dropWhile Char.isDigit).isEmpty
            | _ => false
          else false
        | _ => false
    | _ => false
  | _ => false

/-- Message of a missing `@param` issue. -/
def missingParamMsg (p : CircuitParam) : List Char :=
  "Missing @param documentation for parameter \"".data ++ p.name ++
    "\" (type: ".data ++ p.type ++ ")".data

/-- Message of an extra documented `@param` issue. -/
def extraParamMsg (n : List Char) : List Char :=
  "Documented @param \"".data ++ n ++
    "\" does not exist in circuit signature".data

/-- Message of a malformed `@circuitInfo` issue. -/
def invalidCircuitInfoMsg (s : List Char) : List Char :=
  "Invalid @circuitInfo format: \"".data ++ s ++
    "\". Expected: k=<number>, rows=<number>".data

/-- `DocValidator.validate`: check one circuit's documentation against
the configured rules, collecting issues in the source's emission order. -/
def validate (o : ValidatorOptions) (circuit : CircuitDoc) (filePath : List Char) :
    ValidationResult :=
  if o.exportedOnly && !circuit.isExported then
    ⟨circuit.name, filePath, circuit.circuitLine, true, []⟩
  else if !circuit.hasDocs then
    ⟨circuit.name, filePath, circuit.circuitLine, false,
      [⟨"Circuit has no documentation comment".data, .warning,
        circuit.circuitLine, "documentation".data⟩]⟩
  else
    let titleSeg : List ValidationIssue :=
      if o.requireTitle && falsyStr circuit.parsed.title then
        [⟨"Missing @title tag".data, .warning, circuit.docStartLine, "@title".data⟩]
      else []
    let descSeg : List ValidationIssue :=
      if o.requireDescription && falsyStr circuit.parsed.description then
        [⟨"Missing @description tag".data, .warning, circuit.docStartLine,
          "@description".data⟩]
      else []
    let remarksSeg : List ValidationIssue :=
      if o.requireRemarks && falsyStr circuit.parsed.remarks then
        [⟨"Missing @remarks section".data, .warning, circuit.docStartLine,
          "@remarks".data⟩]
      else []
    let ciSeg : List ValidationIssue :=
      if o.requireCircuitInfo then
        if falsyStr circuit.parsed.circuitInfo then
          [⟨"Missing @circuitInfo tag".data, .warning, circuit.docStartLine,
            "@circuitInfo".data⟩]
        else if circuitInfoFormatOk (circuit.parsed.circuitInfo.getD []) then []
        else
          [⟨invalidCircuitInfoMsg (circuit.parsed.circuitInfo.getD []), .warning,
            circuit.docStartLine, "@circuitInfo".data⟩]
      else []
    let docNames := circuit.parsed.params.map (fun p => p.name)
    let sigNames := circuit.signatureParams.map (fun p => p.name)
    let paramSeg : List ValidationIssue :=
      if o.requireParams && !circuit.signatureParams.isEmpty then
        ((circuit.signatureParams.filter (fun p => !(docNames.contains p.name))).map
          (fun p =>
            ⟨missingParamMsg p, .warning, circuit.docStartLine, "@param".data⟩)) ++
        ((circuit.parsed.params.filter (fun dp => !(sigNames.contains dp.name))).map
          (fun dp =>
            ⟨extraParamMsg dp.name, .warning, circuit.docStartLine, "@param".data⟩))
      else []
    let throwsSeg : List ValidationIssue :=
      if o.requireThrows && circuit.parsed.throws.isEmpty then
        [⟨"Missing @throws documentation".data, .warning, circuit.docStartLine,
          "@throws".data⟩]
      else []
    let retSeg : List ValidationIssue :=
      if o.requireReturns && circuit.parsed.returns.isNone then
        [⟨"Missing @returns tag".data, .warning, circuit.docStartLine,
          "@returns".data⟩]
      else []
    let issues :=
      titleSeg ++ descSeg ++ remarksSeg ++ ciSeg ++ paramSeg ++ throwsSeg ++ retSeg
    ⟨circuit.name, filePath, circuit.circuitLine, issues.isEmpty, issues⟩

/-- `DocValidator.validateAll`. -/
def validateAll (o : ValidatorOptions) (circuits : List CircuitDoc)
    (filePath : List Char) : List ValidationResult :=
  circuits.map (fun c => validate o c filePath)

/-- Warning count of an issue list. -/
def warnCount (l : List ValidationIssue) : Nat :=
  l.countP (fun iss => decide (iss.severity = Severity.warning))

/-- Error count of an issue list (the `else` branch of the loop). -/
def errCount (l : List ValidationIssue) : Nat :=
  l.countP (fun iss => !decide (iss.severity = Severity.warning))

/-- Counter loop of `DocValidator.summarize`, with the four running
counters as accumulators. -/
def summarizeGo : List ValidationResult → Nat → Nat → Nat → Nat → Nat × Nat × Nat × Nat
  | [], v, wi, w, e => (v, wi, w, e)
  | r :: rest, v, wi, w, e =>
    summarizeGo rest (if r.isValid then v + 1 else v)
      (if r.isValid then wi else wi + 1) (w + warnCount r.issues)
      (e + errCount r.issues)

/-- `DocValidator.summarize`. -/
def summarize (results : List ValidationResult) (filePath : List Char) : FileSummary :=
  let c := summarizeGo results 0 0 0 0
  ⟨filePath, results.length, c.1, c.2.1, c.2.2.1, c.2.2.2⟩

example : circuitInfoFormatOk "k=11, rows=1305".data = true := by decide
example : circuitInfoFormatOk "k=11,rows=1305".data = true := by decide
example : circuitInfoFormatOk "k=11".data = false := by decide

/-! ## Shared lemmas -/

/-- Angle-bracket balance of a string: `+1` per `<`, `-1` per `>`. -/
def angleBalance : List Char → Int
  | [] => 0
  | c :: cs => (if c = '<' then 1 else if c = '>' then -1 else 0) + angleBalance cs

theorem angleBalance_append_one (xs : List Char) (c : Char) :
    angleBalance (xs ++ [c]) =
      angleBalance xs + (if c = '<' then 1 else if c = '>' then -1 else 0) := by
  induction xs with
  | nil => simp [angleBalance]
  | cons a as ih => simp [angleBalance, ih]; ring

theorem trim_eq_nil_all_ws (cs : List Char) (h : trim cs = []) :
    ∀ c ∈ cs, isWS c = true := by
  unfold trim at h
  rw [List.reverse_eq_nil_iff, List.dropWhile_eq_nil_iff] at h
  intro c hc
  have hsplit := List.takeWhile_append_dropWhile (p := isWS) (l := cs)
  rw [← hsplit] at hc
  rcases List.mem_append.mp hc with h1 | h1
  · exact List.mem_takeWhile_imp h1
  · exact h c (List.mem_reverse.mpr h1)

theorem mem_of_mem_trim {c : Char} {cs : List Char} (h : c ∈ trim cs) : c ∈ cs := by
  unfold trim at h
  rw [List.mem_reverse] at h
  have h2 := (List.dropWhile_sublist (l := (cs.dropWhile isWS).reverse) (p := isWS)).subset h
  rw [List.mem_reverse] at h2
  exact (List.dropWhile_sublist (l := cs) (p := isWS)).subset h2

theorem mem_of_cons_isPrefixOf {a : Char} {pre l : List Char}
    (h : (a :: pre).isPrefixOf l = true) : a ∈ l := by
  cases l with
  | nil => simp [List.isPrefixOf] at h
  | cons b bs =>
    simp only [List.isPrefixOf, Bool.and_eq_true, beq_iff_eq] at h
    exact h.1 ▸ List.mem_cons_self a bs

theorem isPrefixOf_self_append (l x : List Char) : l.isPrefixOf (l ++ x) = true := by
  induction l with
  | nil => simp [List.isPrefixOf]
  | cons a as ih => simp [List.isPrefixOf, ih]

theorem joinNL_mem_head {c : Char} {l : List Char} (ls : List (List Char)) (h : c ∈ l) :
    c ∈ joinNL (l :: ls) := by
  cases ls with
  | nil => simpa [joinNL] using h
  | cons l2 ls2 => simp [joinNL]; exact Or.inl h

theorem splitOnNL_ne_nil (s : List Char) : splitOnNL s ≠ [] := by
  cases s with
  | nil => simp [splitOnNL]
  | cons c cs =>
    simp only [splitOnNL]
    split
    · simp
    · split <;> simp

theorem joinNL_splitOnNL (s : List Char) : joinNL (splitOnNL s) = s := by
  induction s with
  | nil => rfl
  | cons c cs ih =>
    simp only [splitOnNL]
    by_cases hc : c = '\n'
    · subst hc
      rw [if_pos rfl]
      rcases he : splitOnNL cs with _ | ⟨l, ls⟩
      · exact absurd he (splitOnNL_ne_nil cs)
      · rw [he] at ih
        simpa [joinNL] using ih
    · rw [if_neg hc]
      rcases he : splitOnNL cs with _ | ⟨l, ls⟩
      · exact absurd he (splitOnNL_ne_nil cs)
      · rw [he] at ih
        cases ls with
        | nil => simpa [joinNL] using ih
        | cons l2 ls2 =>
          simp only [joinNL] at ih ⊢
          rw [List.cons_append, ih]

theorem map_id_on {α : Type} (f : α → α) :
    ∀ (L : List α), (∀ l ∈ L, f l = l) → L.map f = L := by
  intro L
  induction L with
  | nil => simp
  | cons a as ih =>
    intro h
    simp only [List.map_cons, h a (List.mem_cons_self a as),
      ih (fun l hl => h l (List.mem_cons_of_mem a hl)), List.cons.injEq, and_self]

/-! ## Claim C3 -/

/-- **C3.** For every circuit record with `isExported = false` and every
configuration with `exportedOnly = true`, `validate` returns `isValid =
true` with an empty issue list, regardless of the documentation content
and the other flags. -/
theorem c3_nonexported_skipped (o : ValidatorOptions) (c : CircuitDoc) (fp : List Char)
    (hExp : o.exportedOnly = true) (hNot : c.isExported = false) :
    validate o c fp = ⟨c.name, fp, c.circuitLine, true, []⟩ := by
  simp [validate, hExp, hNot]

/-- A non-exported circuit whose documentation is thoroughly malformed:
the default configuration still reports it valid with no issues. -/
def c3Circuit : CircuitDoc :=
  ⟨"secretHelper".data, "garbage doc".data, 7, 3, 6, true, false, emptyParsedDoc,
    [⟨"x".data, "Uint<64>".data⟩], "[]".data⟩

/-- Witness for C3 at a concrete malformed, non-exported circuit. -/
theorem c3_witness :
    validate DEFAULT_OPTIONS c3Circuit "Token.compact".data =
      ⟨"secretHelper".data, "Token.compact".data, 7, true, []⟩ :=
  c3_nonexported_skipped DEFAULT_OPTIONS c3Circuit "Token.compact".data rfl rfl

/-! ## Claim C4 -/

/-- **C4.** A circuit with `hasDocs = false` that is subject to checking
(exported, or `exportedOnly = false`) yields exactly one issue — severity
`warning`, field `documentation`, at the declaration line — and no
further checks run, regardless of the other flags. -/
theorem c4_missing_docs_single_issue (o : ValidatorOptions) (c : CircuitDoc)
    (fp : List Char) (hDocs : c.hasDocs = false)
    (hCheck : o.exportedOnly = false ∨ c.isExported = true) :
    validate o c fp = ⟨c.name, fp, c.circuitLine, false,
      [⟨"Circuit has no documentation comment".data, .warning, c.circuitLine,
        "documentation".data⟩]⟩ := by
  rcases hCheck with h | h <;> simp [validate, h, hDocs]

/-- An exported, undocumented circuit under a configuration that requires
every tag. -/
def c4Circuit : CircuitDoc :=
  ⟨"mint".data, [], 12, 13, 13, false, true, emptyParsedDoc,
    [⟨"amount".data, "Uint<64>".data⟩], "[]".data⟩

/-- Witness for C4: even with every requirement enabled, the undocumented
circuit gets exactly the single `documentation` warning. -/
theorem c4_witness :
    validate ⟨true, true, true, true, true, true, true, true⟩ c4Circuit
        "Mint.compact".data =
      ⟨"mint".data, "Mint.compact".data, 12, false,
        [⟨"Circuit has no documentation comment".data, .warning, 12,
          "documentation".data⟩]⟩ :=
  c4_missing_docs_single_issue ⟨true, true, true, true, true, true, true, true⟩
    c4Circuit "Mint.compact".data rfl (Or.inr rfl)

/-! ## Claim C5 -/

theorem splitParamsAux_balanced :
    ∀ (cs cur : List Char) (ac : Int) (parts : List (List Char)),
      (∀ p ∈ parts, angleBalance p = 0) → ac = angleBalance cur →
      ∀ p ∈ (splitParamsAux cs cur ac parts).dropLast, angleBalance p = 0 := by
  intro cs
  induction cs with
  | nil =>
    intro cur ac parts hparts _ p hp
    simp only [splitParamsAux] at hp
    split at hp
    · rw [List.dropLast_concat] at hp
      exact hparts p hp
    · exact hparts p ((List.dropLast_sublist parts).subset hp)
  | cons c cs ih =>
    intro cur ac parts hparts hac p hp
    simp only [splitParamsAux] at hp
    split at hp
    · rename_i h1
      refine ih _ _ _ hparts ?_ p hp
      rw [angleBalance_append_one]
      simp [h1, hac]
    · split at hp
      · rename_i h1 h2
        refine ih _ _ _ hparts ?_ p hp
        rw [angleBalance_append_one]
        simp [h1, h2, hac]
        omega
      · split at hp
        · rename_i hcomma
          refine ih _ _ _ ?_ ?_ p hp
          · intro q hq
            rcases List.mem_append.mp hq with h1 | h1
            · exact hparts q h1
            · rw [List.mem_singleton.mp h1, ← hac]
              exact hcomma.2
          · rw [hcomma.2]
            rfl
        · rename_i h1 h2 h3
          refine ih _ _ _ hparts ?_ p hp
          rw [angleBalance_append_one, if_neg h1, if_neg h2, hac]
          ring

/-- **C5.** The parameter list `admin: Either<A, B>, caller: Either<A, B>`
splits into exactly two parameters named `admin` and `caller`; and in
general, every fragment produced by `splitParams` other than possibly the
last has angle-bracket balance zero — a comma seen at nonzero running
`<`/`>` count never separates fragments. -/
theorem c5_nested_generic_split :
    (extractParams
        "circuit grant(admin: Either<A, B>, caller: Either<A, B>): []".data =
      [⟨"admin".data, "Either<A, B>".data⟩, ⟨"caller".data, "Either<A, B>".data⟩]) ∧
    ∀ (s p : List Char), p ∈ (splitParams s).dropLast → angleBalance p = 0 :=
  ⟨by decide, fun s p hp =>
    splitParamsAux_balanced s [] 0 [] (by simp) rfl p hp⟩

/-- Witness for C5's general clause: the non-final fragment `a<b,c>` of
`a<b,c>,d` is angle-balanced. -/
theorem c5_witness :
    "a<b,c>".data ∈ (splitParams "a<b,c>,d".data).dropLast ∧
      angleBalance "a<b,c>".data = 0 :=
  ⟨by decide, c5_nested_generic_split.2 "a<b,c>,d".data "a<b,c>".data (by decide)⟩

/-! ## Claim C6 -/

theorem warnCount_add_errCount (l : List ValidationIssue) :
    warnCount l + errCount l = l.length := by
  unfold warnCount errCount
  induction l with
  | nil => rfl
  | cons a as ih =>
    simp only [List.countP_cons, List.length_cons]
    by_cases h : a.severity = Severity.warning <;> simp [h] <;> omega

theorem summarizeGo_spec :
    ∀ (l : List ValidationResult) (v wi w e : Nat),
      (summarizeGo l v wi w e).1 + (summarizeGo l v wi w e).2.1 = v + wi + l.length ∧
      (summarizeGo l v wi w e).2.2.1 + (summarizeGo l v wi w e).2.2.2 =
        w + e + (l.map (fun r => r.issues.length)).sum := by
  intro l
  induction l with
  | nil => intro v wi w e; simp [summarizeGo]
  | cons r rest ih =>
    intro v wi w e
    simp only [summarizeGo]
    constructor
    · rcases (ih (if r.isValid then v + 1 else v) (if r.isValid then wi else wi + 1)
        (w + warnCount r.issues) (e + errCount r.issues)) with ⟨h1, _⟩
      rw [h1]
      by_cases hv : r.isValid <;> simp [hv, List.length_cons] <;> ring
    · rcases (ih (if r.isValid then v + 1 else v) (if r.isValid then wi else wi + 1)
        (w + warnCount r.issues) (e + errCount r.issues)) with ⟨_, h2⟩
      rw [h2, List.map_cons, List.sum_cons]
      have := warnCount_add_errCount r.issues
      omega

/-- **C6.** For every sequence of validation results, `summarize` reports
`totalCircuits` equal to the sequence length, `validCircuits +
circuitsWithIssues = totalCircuits`, and `totalWarnings + totalErrors`
equal to the total number of issues. -/
theorem c6_summary_invariant (results : List ValidationResult) (fp : List Char) :
    (summarize results fp).totalCircuits = results.length ∧
    (summarize results fp).validCircuits + (summarize results fp).circuitsWithIssues =
      (summarize results fp).totalCircuits ∧
    (summarize results fp).totalWarnings + (summarize results fp).totalErrors =
      (results.map (fun r => r.issues.length)).sum := by
  rcases summarizeGo_spec results 0 0 0 0 with ⟨h1, h2⟩
  refine ⟨rfl, ?_, ?_⟩
  · simpa [summarize] using h1
  · simpa [summarize] using h2

/-! ## Claim C9 -/

/-- Whether a line begins with optional whitespace followed by an
asterisk (the guard of the per-line star stripping). -/
def lineStartsStar (l : List Char) : Bool :=
  match l.dropWhile isWS with
  | '*' :: _ => true
  | _ => false

theorem stripLineStar_id (l : List Char) (h : lineStartsStar l = false) :
    stripLineStar l = l := by
  unfold lineStartsStar at h
  unfold stripLineStar
  rcases hd : l.dropWhile isWS with _ | ⟨c, rest⟩
  · rfl
  · rw [hd] at h
    by_cases hc : c = '*'
    · subst hc
      exact Bool.noConfusion h
    · split
      · rename_i heq
        injection heq with heq1 _
        exact absurd heq1 hc
      · rfl

theorem normalizeFixSufficiency (s : List Char)
    (h1 : trim s = s)
    (h2 : "/**".data.isPrefixOf s = false)
    (h3 : "/*".data.isPrefixOf s.reverse = false)
    (h4 : ∀ l ∈ splitOnNL s, lineStartsStar l = false) :
    normalizeDocComment s = s := by
  have hopen : stripOpenMarker s = s := by
    simp [stripOpenMarker, h2]
  have hclose : stripCloseMarker s = s := by
    simp [stripCloseMarker, h3]
  have hmap : (splitOnNL s).map stripLineStar = splitOnNL s :=
    map_id_on _ _ (fun l hl => stripLineStar_id l (h4 l hl))
  rw [normalizeDocComment, hopen, hclose, hmap, joinNL_splitOnNL, h1]

theorem dropWhileLenLe (p : Char → Bool) (l : List Char) :
    (l.dropWhile p).length ≤ l.length := by
  induction l with
  | nil => simp
  | cons a as ih =>
    rw [List.dropWhile_cons]
    split
    · exact Nat.le_succ_of_le ih
    · exact Nat.le_refl _

theorem trimLenLe (cs : List Char) : (trim cs).length ≤ cs.length := by
  unfold trim
  calc ((cs.dropWhile isWS).reverse.dropWhile isWS).reverse.length
      = ((cs.dropWhile isWS).reverse.dropWhile isWS).length := List.length_reverse _
    _ ≤ (cs.dropWhile isWS).reverse.length := dropWhileLenLe _ _
    _ = (cs.dropWhile isWS).length := List.length_reverse _
    _ ≤ cs.length := dropWhileLenLe _ _

theorem prefixLenLe : ∀ l1 l2 : List Char, l1.isPrefixOf l2 = true →
    l1.length ≤ l2.length := by
  intro l1
  induction l1 with
  | nil => intro l2 _; simp
  | cons a as ih =>
    intro l2 h
    cases l2 with
    | nil => simp [List.isPrefixOf] at h
    | cons b bs =>
      simp only [List.isPrefixOf, Bool.and_eq_true] at h
      simp only [List.length_cons]
      exact Nat.succ_le_succ (ih bs h.2)

theorem stripOpenLenLt (s : List Char) (h : "/**".data.isPrefixOf s = true) :
    (stripOpenMarker s).length < s.length := by
  have h3 : 3 ≤ s.length := by
    have h0 := prefixLenLe _ _ h
    have hb : ("/**".data).length = 3 := rfl
    omega
  simp only [stripOpenMarker, h, if_true]
  have h1 := dropWhileLenLe isWS (s.drop 3)
  have h2 : (s.drop 3).length = s.length - 3 := List.length_drop 3 s
  omega

theorem stripCloseLenLe (s : List Char) : (stripCloseMarker s).length ≤ s.length := by
  simp only [stripCloseMarker]
  split
  · have h1 := dropWhileLenLe isWS (s.reverse.drop 2)
    have h2 : (s.reverse.drop 2).length = s.length - 2 := by
      rw [List.length_drop, List.length_reverse]
    rw [List.length_reverse]
    omega
  · exact Nat.le_refl _

theorem stripCloseLenLt (s : List Char) (h : "/*".data.isPrefixOf s.reverse = true) :
    (stripCloseMarker s).length < s.length := by
  have h0 : 2 ≤ s.length := by
    have h4 := prefixLenLe _ _ h
    have hb : ("/*".data).length = 2 := rfl
    rw [List.length_reverse] at h4
    omega
  simp only [stripCloseMarker, h, if_true]
  have h1 := dropWhileLenLe isWS (s.reverse.drop 2)
  have h2 : (s.reverse.drop 2).length = s.length - 2 := by
    rw [List.length_drop, List.length_reverse]
  rw [List.length_reverse]
  omega

theorem stripLineStarLenLe (l : List Char) : (stripLineStar l).length ≤ l.length := by
  unfold stripLineStar
  rcases hd : l.dropWhile isWS with _ | ⟨c, rest⟩
  · exact Nat.le_refl _
  · have hlen : rest.length + 1 ≤ l.length := by
      have hw := dropWhileLenLe isWS l
      rw [hd] at hw
      simpa using hw
    by_cases hc : c = '*'
    · subst hc
      cases rest with
      | nil => exact Nat.zero_le _
      | cons c2 rest2 =>
        show (if isWS c2 then rest2 else c2 :: rest2).length ≤ l.length
        simp only [List.length_cons] at hlen
        split
        · omega
        · simp only [List.length_cons]
          omega
    · split
      · rename_i heq
        injection heq with heq1 _
        exact absurd heq1 hc
      · exact Nat.le_refl _

theorem stripLineStarLenLt (l : List Char) (h : lineStartsStar l = true) :
    (stripLineStar l).length < l.length := by
  unfold lineStartsStar at h
  unfold stripLineStar
  rcases hd : l.dropWhile isWS with _ | ⟨c, rest⟩
  · rw [hd] at h
    exact Bool.noConfusion h
  · rw [hd] at h
    have hlen : rest.length + 1 ≤ l.length := by
      have hw := dropWhileLenLe isWS l
      rw [hd] at hw
      simpa using hw
    by_cases hc : c = '*'
    · subst hc
      cases rest with
      | nil =>
        show ([] : List Char).length < l.length
        simp only [List.length_nil]
        omega
      | cons c2 rest2 =>
        show (if isWS c2 then rest2 else c2 :: rest2).length < l.length
        simp only [List.length_cons] at hlen
        split
        · omega
        · simp only [List.length_cons]
          omega
    · exfalso
      split at h
      · rename_i heq
        injection heq with heq1 _
        exact hc heq1
      · exact Bool.noConfusion h

theorem joinNLMapLenLe (f : List Char → List Char)
    (hf : ∀ l, (f l).length ≤ l.length) :
    ∀ L : List (List Char), (joinNL (L.map f)).length ≤ (joinNL L).length := by
  intro L
  induction L with
  | nil => simp [joinNL]
  | cons l rest ih =>
    cases rest with
    | nil => simpa [joinNL] using hf l
    | cons l2 ls =>
      simp only [List.map_cons, joinNL, List.length_append, List.length_cons]
      simp only [List.map_cons] at ih
      have h1 := hf l
      omega

theorem joinNLMapLenLt (f : List Char → List Char)
    (hf : ∀ l, (f l).length ≤ l.length) :
    ∀ (L : List (List Char)) (l0 : List Char), l0 ∈ L → (f l0).length < l0.length →
      (joinNL (L.map f)).length < (joinNL L).length := by
  intro L
  induction L with
  | nil => intro l0 h _; simp at h
  | cons l rest ih =>
    intro l0 hmem hlt
    cases rest with
    | nil =>
      rw [List.mem_singleton.mp hmem] at hlt
      simpa [joinNL] using hlt
    | cons l2 ls =>
      simp only [List.map_cons, joinNL, List.length_append, List.length_cons]
      rcases List.mem_cons.mp hmem with heq | hmem2
      · have h2 := joinNLMapLenLe f hf (l2 :: ls)
        simp only [List.map_cons] at h2
        rw [heq] at hlt
        omega
      · have h1 := hf l
        have h2 := ih l0 hmem2 hlt
        simp only [List.map_cons] at h2
        omega

theorem normalizeStageLenLe (X : List Char) :
    (trim (joinNL ((splitOnNL X).map stripLineStar))).length ≤ X.length := by
  have h1 := trimLenLe (joinNL ((splitOnNL X).map stripLineStar))
  have h2 := joinNLMapLenLe stripLineStar stripLineStarLenLe (splitOnNL X)
  rw [joinNL_splitOnNL] at h2
  omega

theorem normalizeFixNecessity (s : List Char) (hfix : normalizeDocComment s = s) :
    trim s = s ∧ "/**".data.isPrefixOf s = false ∧
      "/*".data.isPrefixOf s.reverse = false ∧
      ∀ l ∈ splitOnNL s, lineStartsStar l = false := by
  have hlen : (normalizeDocComment s).length = s.length := congrArg List.length hfix
  rw [normalizeDocComment] at hlen
  have hpre : "/**".data.isPrefixOf s = false := by
    cases hb : "/**".data.isPrefixOf s
    · rfl
    · exfalso
      have h1 := stripOpenLenLt s hb
      have h2 := stripCloseLenLe (stripOpenMarker s)
      have h3 := normalizeStageLenLe (stripCloseMarker (stripOpenMarker s))
      omega
  have hso : stripOpenMarker s = s := by simp [stripOpenMarker, hpre]
  rw [hso] at hlen
  have hsuf : "/*".data.isPrefixOf s.reverse = false := by
    cases hb : "/*".data.isPrefixOf s.reverse
    · rfl
    · exfalso
      have h1 := stripCloseLenLt s hb
      have h3 := normalizeStageLenLe (stripCloseMarker s)
      omega
  have hsc : stripCloseMarker s = s := by simp [stripCloseMarker, hsuf]
  rw [hsc] at hlen
  have hstars : ∀ l ∈ splitOnNL s, lineStartsStar l = false := by
    intro l0 hl0
    cases hb : lineStartsStar l0
    · rfl
    · exfalso
      have hlt := joinNLMapLenLt stripLineStar stripLineStarLenLe (splitOnNL s) l0 hl0
        (stripLineStarLenLt l0 hb)
      rw [joinNL_splitOnNL] at hlt
      have htr := trimLenLe (joinNL ((splitOnNL s).map stripLineStar))
      omega
  have hmap := map_id_on stripLineStar (splitOnNL s)
    (fun l hl => stripLineStar_id l (hstars l hl))
  have htrim : trim s = s := by
    have h := hfix
    rw [normalizeDocComment, hso, hsc, hmap, joinNL_splitOnNL] at h
    exact h
  exact ⟨htrim, hpre, hsuf, hstars⟩

/-- **C9 (amended).** `normalizeDocComment` is not idempotent in general
(see `c9_counterexample`); it is the identity — hence idempotent —
exactly on the fully normalized strings: `normalizeDocComment s = s` if
and only if `s` equals its own trim, does not begin with `/**`, does not
end with `*/`, and none of its lines begins with optional whitespace
followed by an asterisk; and at every such fixed point normalization is
idempotent. -/
theorem c9_normalize_fixpoint (s : List Char) :
    (normalizeDocComment s = s ↔
      (trim s = s ∧ "/**".data.isPrefixOf s = false ∧
        "/*".data.isPrefixOf s.reverse = false ∧
        ∀ l ∈ splitOnNL s, lineStartsStar l = false)) ∧
    (normalizeDocComment s = s →
      normalizeDocComment (normalizeDocComment s) = normalizeDocComment s) := by
  constructor
  · constructor
    · exact normalizeFixNecessity s
    · rintro ⟨h1, h2, h3, h4⟩
      exact normalizeFixSufficiency s h1 h2 h3 h4
  · intro h
    rw [h]
    exact h

/-- **C9 counterexample.** Normalization strips one leading asterisk per
line and pass: `** x` normalizes to `* x`, which normalizes again to
`x`, so the claimed idempotence fails. -/
theorem c9_counterexample :
    normalizeDocComment (normalizeDocComment "** x".data) ≠
      normalizeDocComment "** x".data := by decide

/-- Witness for C9 on a concrete fully-normalized two-line text: it is a
fixed point by the characterization, hence normalization is idempotent
at it. -/
theorem c9_witness :
    normalizeDocComment "hello\nworld".data = "hello\nworld".data ∧
      normalizeDocComment (normalizeDocComment "hello\nworld".data) =
        normalizeDocComment "hello\nworld".data := by
  have h := (c9_normalize_fixpoint "hello\nworld".data).1.mpr
    ⟨by decide, by decide, by decide, by decide⟩
  exact ⟨h, (c9_normalize_fixpoint "hello\nworld".data).2 h⟩

/-! ## Claim C1 -/

theorem parseContentGo_map (lines : List (List Char)) :
    ∀ (i : Nat) (rem : List (List Char)),
      (parseContentGo lines i rem).map (fun r => (r.isExported, r.name)) =
        rem.filterMap matchCircuitDecl := by
  intro i rem
  induction rem generalizing i with
  | nil => rfl
  | cons l rest ih =>
    simp only [parseContentGo]
    rcases h : matchCircuitDecl l with _ | em
    · simp [List.filterMap_cons, h, ih]
    · simp [List.filterMap_cons, h, ih, mkRecord]

/-- **C1 (amended).** `parseContent` emits exactly one record per line
that matches the anchored declaration pattern — optional `export`,
optional `pure`, the keyword `circuit`, an identifier and an opening
parenthesis, starting at the very beginning of the line — with
`isExported` true exactly when the `export` keyword is present.  The
pattern is anchored: a declaration line with leading whitespace is *not*
captured (see `c1_counterexample`). -/
theorem c1_records_iff_anchored_decl (content : List Char) :
    (parseContent content).map (fun r => (r.isExported, r.name)) =
      (splitOnNL content).filterMap matchCircuitDecl :=
  parseContentGo_map (splitOnNL content) 0 (splitOnNL content)

/-- **C1 counterexample.** A declaration line with leading whitespace
matches the claimed pattern once the whitespace is ignored, yet
`parseContent` emits no record for it. -/
theorem c1_counterexample :
    parseContent "  circuit foo(x: T): T".data = [] ∧
      matchCircuitDecl ("  circuit foo(x: T): T".data.dropWhile isWS) =
        some (false, "foo".data) := by decide

/-! ## Claim C7 -/

theorem lastNonBlank_lt (lines : List (List Char)) :
    ∀ i j, lastNonBlank lines i = some j → j < i := by
  intro i
  induction i with
  | zero => intro j h; simp [lastNonBlank] at h
  | succ n ih =>
    intro j h
    simp only [lastNonBlank] at h
    split at h
    · cases h
      exact Nat.lt_succ_self n
    · exact Nat.lt_succ_of_lt (ih j h)

theorem findOpenMarker_le (lines : List (List Char)) :
    ∀ j j0, findOpenMarker lines j = some j0 → j0 ≤ j := by
  intro j
  induction j with
  | zero =>
    intro j0 h
    simp only [findOpenMarker] at h
    split at h
    · cases h; exact Nat.le_refl 0
    · cases h
  | succ n ih =>
    intro j0 h
    simp only [findOpenMarker] at h
    split at h
    · cases h; exact Nat.le_refl (n + 1)
    · exact Nat.le_succ_of_le (ih j0 h)

theorem findDocComment_le (lines : List (List Char)) (i : Nat) :
    (findDocComment lines i).2.1 ≤ (findDocComment lines i).2.2 ∧
      (findDocComment lines i).2.2 ≤ i + 1 := by
  unfold findDocComment
  rcases hj : lastNonBlank lines i with _ | j
  · simp
  · have hji := lastNonBlank_lt lines i j hj
    by_cases hce : endsCloseMarker (lineAt lines j)
    · simp only [hce, if_true]
      rcases ho : findOpenMarker lines j with _ | j0
      · simp
      · have hle := findOpenMarker_le lines j j0 ho
        simp
        omega
    · simp [hce]

theorem parseContentGo_mem_mkRecord (lines : List (List Char)) :
    ∀ (i : Nat) (rem : List (List Char)) (rec : CircuitDoc),
      rec ∈ parseContentGo lines i rem →
      ∃ k isExp nm, rec = mkRecord lines k isExp nm := by
  intro i rem
  induction rem generalizing i with
  | nil => intro rec h; simp [parseContentGo] at h
  | cons l rest ih =>
    intro rec h
    simp only [parseContentGo] at h
    rcases hm : matchCircuitDecl l with _ | em
    · rw [hm] at h
      exact ih (i + 1) rec h
    · rw [hm] at h
      rcases List.mem_cons.mp h with h1 | h1
      · exact ⟨i, em.1, em.2, h1⟩
      · exact ih (i + 1) rec h1

theorem mkRecord_line_le (lines : List (List Char)) (k : Nat) (isExp : Bool)
    (nm : List Char) :
    (mkRecord lines k isExp nm).docStartLine ≤ (mkRecord lines k isExp nm).docEndLine ∧
      (mkRecord lines k isExp nm).docEndLine ≤ (mkRecord lines k isExp nm).circuitLine := by
  simpa only [mkRecord] using findDocComment_le lines k

/-- **C7.** Every record produced by the extractor satisfies
`docStartLine ≤ docEndLine ≤ circuitLine` (all 1-indexed). -/
theorem c7_doc_line_ordering (content : List Char) (rec : CircuitDoc)
    (h : rec ∈ parseContent content) :
    rec.docStartLine ≤ rec.docEndLine ∧ rec.docEndLine ≤ rec.circuitLine := by
  obtain ⟨k, isExp, nm, rfl⟩ :=
    parseContentGo_mem_mkRecord (splitOnNL content) 0 (splitOnNL content) rec h
  exact mkRecord_line_le (splitOnNL content) k isExp nm

/-- A one-line undocumented declaration used to witness C7. -/
def c7Content : List Char := "circuit f(x: A): B".data

/-- The record extracted from `c7Content`. -/
def c7Record : CircuitDoc :=
  ⟨"f".data, [], 1, 1, 1, false, false, emptyParsedDoc, [⟨"x".data, "A".data⟩],
    "B".data⟩

/-- Witness for C7 at a concrete extraction. -/
theorem c7_witness :
    c7Record.docStartLine ≤ c7Record.docEndLine ∧
      c7Record.docEndLine ≤ c7Record.circuitLine :=
  c7_doc_line_ordering c7Content c7Record (by decide)

/-! ## Claim C8 -/

theorem findOpenMarker_starts (lines : List (List Char)) :
    ∀ j j0, findOpenMarker lines j = some j0 →
      startsDocMarker (lineAt lines j0) = true := by
  intro j
  induction j with
  | zero =>
    intro j0 h
    simp only [findOpenMarker] at h
    split at h
    · cases h; assumption
    · cases h
  | succ n ih =>
    intro j0 h
    simp only [findOpenMarker] at h
    split at h
    · cases h; assumption
    · exact ih j0 h

theorem docSlice_ne_nil (lines : List (List Char)) (j0 j : Nat)
    (hs : startsDocMarker (lineAt lines j0) = true) :
    trim (joinNL (sliceLines lines j0 j)) ≠ [] := by
  have hlen : j0 < lines.length := by
    by_contra hge
    push_neg at hge
    have hnil : lineAt lines j0 = [] := by
      unfold lineAt
      exact List.getD_eq_default lines [] hge
    rw [hnil] at hs
    exact absurd hs (by decide)
  have hdrop : lines.drop j0 = lineAt lines j0 :: lines.drop (j0 + 1) := by
    unfold lineAt
    rw [List.getD_eq_getElem lines [] hlen]
    exact List.drop_eq_getElem_cons hlen
  have hslice :
      sliceLines lines j0 j = lineAt lines j0 :: (lines.drop (j0 + 1)).take (j - j0) := by
    unfold sliceLines
    rw [hdrop, List.take_succ_cons]
  have hmem : '/' ∈ lineAt lines j0 := by
    unfold startsDocMarker at hs
    have hcons : "/**".data = '/' :: "**".data := rfl
    rw [hcons] at hs
    exact mem_of_mem_trim (mem_of_cons_isPrefixOf hs)
  intro hnil
  have hin : '/' ∈ joinNL (sliceLines lines j0 j) := by
    rw [hslice]
    exact joinNL_mem_head _ hmem
  have := trim_eq_nil_all_ws _ hnil '/' hin
  exact absurd this (by decide)

theorem findDocComment_cases (lines : List (List Char)) (i : Nat) :
    findDocComment lines i = ([], i + 1, i + 1) ∨ (findDocComment lines i).1 ≠ [] := by
  unfold findDocComment
  rcases hj : lastNonBlank lines i with _ | j
  · left; rfl
  · by_cases hce : endsCloseMarker (lineAt lines j)
    · rcases ho : findOpenMarker lines j with _ | j0
      · left; simp [hce, ho]
      · right
        simp only [hce, if_true, ho]
        exact docSlice_ne_nil lines j0 j (findOpenMarker_starts lines j j0 ho)
    · left; simp [hce]

/-- **C8 (amended).** When the backward walk finds no documentation
block, the extractor's record has `hasDocs = false`, an empty doc block,
and `docStartLine` and `docEndLine` both equal to the *declaration line
itself* (its 1-indexed number, i.e. the 0-based declaration index plus
one) — not the line after the declaration. -/
theorem c8_no_docs_line_numbers (content : List Char) (rec : CircuitDoc)
    (h : rec ∈ parseContent content) (hnd : rec.hasDocs = false) :
    rec.docComment = [] ∧ rec.docStartLine = rec.circuitLine ∧
      rec.docEndLine = rec.circuitLine := by
  obtain ⟨k, isExp, nm, rfl⟩ :=
    parseContentGo_mem_mkRecord (splitOnNL content) 0 (splitOnNL content) rec h
  simp only [mkRecord] at hnd ⊢
  rcases findDocComment_cases (splitOnNL content) k with hA | hB
  · rw [hA]
    exact ⟨rfl, rfl, rfl⟩
  · exfalso
    apply hB
    simpa using hnd

/-- **C8 counterexample.** For a bare declaration on line 1,
`docStartLine = docEndLine = 1 = circuitLine`, not `circuitLine + 1` as
the claim ("the line after the declaration line") requires. -/
theorem c8_counterexample :
    parseContent "circuit g(y: U): V".data ≠ [] ∧
      ∀ r ∈ parseContent "circuit g(y: U): V".data,
        r.hasDocs = false ∧ r.docComment = [] ∧ r.docStartLine = 1 ∧
          r.circuitLine = 1 ∧ r.docStartLine ≠ r.circuitLine + 1 := by decide

/-- A two-line input whose declaration (line 2) has no preceding docs. -/
def c8Content : List Char := "\ncircuit h(): T".data

/-- The record extracted from `c8Content`. -/
def c8Record : CircuitDoc :=
  ⟨"h".data, [], 2, 2, 2, false, false, emptyParsedDoc, [], "T".data⟩

/-- Witness for the amended C8 at a concrete extraction. -/
theorem c8_witness :
    c8Record.docComment = [] ∧ c8Record.docStartLine = c8Record.circuitLine ∧
      c8Record.docEndLine = c8Record.circuitLine :=
  c8_no_docs_line_numbers c8Content c8Record (by decide) (by decide)

/-! ## Claims C2 and C10 -/

theorem filter_seg_nil (pred : ValidationIssue → Bool) (b : Bool)
    (iss : ValidationIssue) (h : pred iss = false) :
    (if b = true then [iss] else []).filter pred = [] := by
  split <;> simp [List.filter_cons, h]

theorem filter_ci_seg_nil (pred : ValidationIssue → Bool) (b1 b2 b3 : Bool)
    (i1 i2 : ValidationIssue) (h1 : pred i1 = false) (h2 : pred i2 = false) :
    (if b1 = true then
        (if b2 = true then [i1] else if b3 = true then [] else [i2])
      else []).filter pred = [] := by
  split
  · split
    · simp [List.filter_cons, h1]
    · split
      · rfl
      · simp [List.filter_cons, h2]
  · rfl

theorem missingMsg_starts (p : CircuitParam) :
    "Missing".data.isPrefixOf (missingParamMsg p) = true := by
  have h : "Missing @param documentation for parameter \"".data =
      "Missing".data ++ " @param documentation for parameter \"".data := by decide
  rw [missingParamMsg, h]
  simp only [List.append_assoc]
  exact isPrefixOf_self_append _ _

theorem missing_not_pre_extraMsg (n : List Char) :
    ¬ ("Missing".data <+: extraParamMsg n) := by
  rintro ⟨t, ht⟩
  have h1 : "Documented @param \"".data = 'D' :: "ocumented @param \"".data := by decide
  have h2 : "Missing".data = 'M' :: "issing".data := by decide
  rw [extraParamMsg, h1, h2, List.cons_append, List.cons_append,
    List.cons_append] at ht
  injection ht with hhead _
  exact absurd hhead (by decide)

/-- **C2.** A circuit whose signature has exactly the parameters `a`, `b`
and whose documentation has exactly the `@param` entries `a`, `c`,
validated with `requireParams = true` (and subject to checking), yields
exactly two `@param` issues: missing-documentation for `b`, then
extra-documentation for `c` — both directions are checked. -/
theorem c2_bidirectional_param_mismatch (o : ValidatorOptions) (c : CircuitDoc)
    (fp ta tb ta2 da tc dc : List Char)
    (hReq : o.requireParams = true) (hDocs : c.hasDocs = true)
    (hCheck : o.exportedOnly = false ∨ c.isExported = true)
    (hSig : c.signatureParams = [⟨"a".data, ta⟩, ⟨"b".data, tb⟩])
    (hDoc : c.parsed.params = [⟨"a".data, ta2, da⟩, ⟨"c".data, tc, dc⟩]) :
    (validate o c fp).issues.filter (fun iss => decide (iss.field = "@param".data)) =
      [⟨missingParamMsg ⟨"b".data, tb⟩, .warning, c.docStartLine, "@param".data⟩,
       ⟨extraParamMsg "c".data, .warning, c.docStartLine, "@param".data⟩] := by
  have h0 : (o.exportedOnly && !c.isExported) = false := by
    rcases hCheck with h | h <;> simp [h]
  have hT : (fun iss : ValidationIssue => decide (iss.field = "@param".data))
      ⟨"Missing @title tag".data, .warning, c.docStartLine, "@title".data⟩ = false := rfl
  have hD : (fun iss : ValidationIssue => decide (iss.field = "@param".data))
      ⟨"Missing @description tag".data, .warning, c.docStartLine,
        "@description".data⟩ = false := rfl
  have hR : (fun iss : ValidationIssue => decide (iss.field = "@param".data))
      ⟨"Missing @remarks section".data, .warning, c.docStartLine,
        "@remarks".data⟩ = false := rfl
  have hC1 : (fun iss : ValidationIssue => decide (iss.field = "@param".data))
      ⟨"Missing @circuitInfo tag".data, .warning, c.docStartLine,
        "@circuitInfo".data⟩ = false := rfl
  have hC2 : (fun iss : ValidationIssue => decide (iss.field = "@param".data))
      ⟨invalidCircuitInfoMsg (c.parsed.circuitInfo.getD []), .warning,
        c.docStartLine, "@circuitInfo".data⟩ = false := rfl
  have hTh : (fun iss : ValidationIssue => decide (iss.field = "@param".data))
      ⟨"Missing @throws documentation".data, .warning, c.docStartLine,
        "@throws".data⟩ = false := rfl
  have hRet : (fun iss : ValidationIssue => decide (iss.field = "@param".data))
      ⟨"Missing @returns tag".data, .warning, c.docStartLine,
        "@returns".data⟩ = false := rfl
  simp only [validate, h0, hDocs, Bool.not_true, Bool.false_eq_true, if_false,
    hReq, hSig, hDoc]
  simp only [List.filter_append]
  rw [filter_seg_nil _ _ _ hT, filter_seg_nil _ _ _ hD, filter_seg_nil _ _ _ hR,
    filter_ci_seg_nil _ _ _ _ _ _ hC1 hC2, filter_seg_nil _ _ _ hTh,
    filter_seg_nil _ _ _ hRet]
  simp [List.filter_append, List.filter_cons]

/-- The `setAdmin` circuit used to witness C2: signature `(a, b)`,
documentation `@param a` and `@param c`. -/
def c2Circuit : CircuitDoc :=
  ⟨"setAdmin".data, "/** docs */".data, 9, 5, 8, true, true,
    ⟨none, some "Sets the admin.".data, none, some "k=10, rows=100".data,
      [⟨"a".data, "A".data, "first".data⟩, ⟨"c".data, "C".data, "third".data⟩],
      [], some ⟨[], "Nothing.".data⟩⟩,
    [⟨"a".data, "A".data⟩, ⟨"b".data, "B".data⟩], "[]".data⟩

/-- Witness for C2 at a concrete circuit under the default options. -/
theorem c2_witness :
    (validate DEFAULT_OPTIONS c2Circuit "Admin.compact".data).issues.filter
        (fun iss => decide (iss.field = "@param".data)) =
      [⟨missingParamMsg ⟨"b".data, "B".data⟩, .warning, 5, "@param".data⟩,
       ⟨extraParamMsg "c".data, .warning, 5, "@param".data⟩] :=
  c2_bidirectional_param_mismatch DEFAULT_OPTIONS c2Circuit "Admin.compact".data
    "A".data "B".data "A".data "first".data "C".data "third".data
    rfl rfl (Or.inr rfl) rfl rfl

theorem filter_missing_map (L : List CircuitParam) (docNames : List (List Char))
    (dsl : Nat) :
    ((L.filter (fun p => !(docNames.contains p.name))).map
        (fun p =>
          (⟨missingParamMsg p, .warning, dsl, "@param".data⟩ : ValidationIssue))).filter
      (fun iss => decide (iss.field = "@param".data) &&
        "Missing".data.isPrefixOf iss.message) =
    (L.filter (fun p => !(docNames.contains p.name))).map
      (fun p =>
        (⟨missingParamMsg p, .warning, dsl, "@param".data⟩ : ValidationIssue)) := by
  rw [List.filter_eq_self]
  intro a ha
  obtain ⟨p, _, rfl⟩ := List.mem_map.mp ha
  simp +decide [missingMsg_starts p]

theorem filter_extra_map (L : List DocParam) (sigNames : List (List Char))
    (dsl : Nat) :
    ((L.filter (fun dp => !(sigNames.contains dp.name))).map
        (fun dp =>
          (⟨extraParamMsg dp.name, .warning, dsl, "@param".data⟩ : ValidationIssue))).filter
      (fun iss => decide (iss.field = "@param".data) &&
        "Missing".data.isPrefixOf iss.message) = [] := by
  rw [List.filter_eq_nil_iff]
  intro a ha
  obtain ⟨dp, _, rfl⟩ := List.mem_map.mp ha
  simp
  exact missing_not_pre_extraMsg dp.name

/-- **C10.** The missing-`@param` check compares name sets: for a checked
circuit with `requireParams = true`, the missing-`@param` issues are
exactly one per signature parameter whose name is absent from the list of
documented `@param` names — so a duplicated signature name with a single
matching `@param` yields no missing-`@param` issue for either
occurrence. -/
theorem c10_missing_params_by_name_set (o : ValidatorOptions) (c : CircuitDoc)
    (fp : List Char) (hReq : o.requireParams = true) (hDocs : c.hasDocs = true)
    (hCheck : o.exportedOnly = false ∨ c.isExported = true) :
    (validate o c fp).issues.filter
        (fun iss => decide (iss.field = "@param".data) &&
          "Missing".data.isPrefixOf iss.message) =
      (c.signatureParams.filter
          (fun p => !((c.parsed.params.map (fun p => p.name)).contains p.name))).map
        (fun p =>
          (⟨missingParamMsg p, .warning, c.docStartLine, "@param".data⟩ :
            ValidationIssue)) := by
  have h0 : (o.exportedOnly && !c.isExported) = false := by
    rcases hCheck with h | h <;> simp [h]
  have hT : (fun iss : ValidationIssue => decide (iss.field = "@param".data) &&
        "Missing".data.isPrefixOf iss.message)
      ⟨"Missing @title tag".data, .warning, c.docStartLine, "@title".data⟩ = false := rfl
  have hD : (fun iss : ValidationIssue => decide (iss.field = "@param".data) &&
        "Missing".data.isPrefixOf iss.message)
      ⟨"Missing @description tag".data, .warning, c.docStartLine,
        "@description".data⟩ = false := rfl
  have hR : (fun iss : ValidationIssue => decide (iss.field = "@param".data) &&
        "Missing".data.isPrefixOf iss.message)
      ⟨"Missing @remarks section".data, .warning, c.docStartLine,
        "@remarks".data⟩ = false := rfl
  have hC1 : (fun iss : ValidationIssue => decide (iss.field = "@param".data) &&
        "Missing".data.isPrefixOf iss.message)
      ⟨"Missing @circuitInfo tag".data, .warning, c.docStartLine,
        "@circuitInfo".data⟩ = false := rfl
  have hC2 : (fun iss : ValidationIssue => decide (iss.field = "@param".data) &&
        "Missing".data.isPrefixOf iss.message)
      ⟨invalidCircuitInfoMsg (c.parsed.circuitInfo.getD []), .warning,
        c.docStartLine, "@circuitInfo".data⟩ = false := rfl
  have hTh : (fun iss : ValidationIssue => decide (iss.field = "@param".data) &&
        "Missing".data.isPrefixOf iss.message)
      ⟨"Missing @throws documentation".data, .warning, c.docStartLine,
        "@throws".data⟩ = false := rfl
  have hRet : (fun iss : ValidationIssue => decide (iss.field = "@param".data) &&
        "Missing".data.isPrefixOf iss.message)
      ⟨"Missing @returns tag".data, .warning, c.docStartLine,
        "@returns".data⟩ = false := rfl
  simp only [validate, h0, hDocs, Bool.not_true, Bool.false_eq_true, if_false, hReq]
  simp only [List.filter_append]
  rw [filter_seg_nil _ _ _ hT, filter_seg_nil _ _ _ hD, filter_seg_nil _ _ _ hR,
    filter_ci_seg_nil _ _ _ _ _ _ hC1 hC2, filter_seg_nil _ _ _ hTh,
    filter_seg_nil _ _ _ hRet]
  by_cases hemp : c.signatureParams.isEmpty
  · rw [List.isEmpty_iff.mp hemp]
    simp
  · have hemp' : (!c.signatureParams.isEmpty) = true := by simp [hemp]
    simp only [Bool.true_and, hemp', if_true, List.filter_append,
      filter_missing_map, filter_extra_map]
    simp

/-- A checked circuit whose signature repeats the name `x` and whose
documentation has a single `@param x`. -/
def c10Circuit : CircuitDoc :=
  ⟨"dup".data, "/** d */".data, 3, 1, 2, true, true,
    ⟨none, some "Duplicated.".data, none, some "k=9, rows=9".data,
      [⟨"x".data, "T".data, "the x".data⟩], [], some ⟨[], "Nothing.".data⟩⟩,
    [⟨"x".data, "T".data⟩, ⟨"x".data, "U".data⟩], "[]".data⟩

/-- Witness for C10: with a duplicated signature name documented once,
zero missing-`@param` issues are emitted. -/
theorem c10_witness :
    (validate DEFAULT_OPTIONS c10Circuit "Dup.compact".data).issues.filter
        (fun iss => decide (iss.field = "@param".data) &&
          "Missing".data.isPrefixOf iss.message) = [] :=
  (c10_missing_params_by_name_set DEFAULT_OPTIONS c10Circuit "Dup.compact".data
      rfl rfl (Or.inr rfl)).trans (by decide)

end CompactDocs
